import Mathlib

/-!
# Verification of the image_rust transformation pipeline

Shallow embedding of the image-processing tool (src/filter.rs, src/palette.rs,
src/main.rs) together with theorems checking the design document against it.

Modelling conventions:
* 8-bit channel values are `Nat`s kept in `[0, 255]` by the operations
  themselves (quantize, clamp, palette entries); no arithmetic in the source
  can overflow its machine type (`i16`/`i32` intermediates are bounded by
  `3 * 255^2`), so `Nat`/`Int` model the values exactly.
* Rust `i16`/`i32` division truncates toward zero, which is `Int.tdiv` here.
* An image raster is a total function from coordinates to values plus its
  dimensions; the source only ever reads and writes in-bounds coordinates.
* `filter.rs` compares `f32` square roots of integer squared distances
  (`color_distance`).  The squared distances are integers `≤ 3 * 255^2 < 2^24`,
  hence exact in `f32`, and for distinct integers `a < b ≤ 195075` the gap
  `√b - √a ≥ 1/(2·√195075) > 10^-3` exceeds the `f32` ulp (`< 2^-14`) at
  those magnitudes, so the correctly rounded square roots are distinct and
  ordered as the integers are.  The comparison performed by the source is
  therefore exactly the comparison of the integer squared distances, which is
  what the embedding uses.
-/

/-- `Color` from src/filter.rs: a 3-channel 8-bit color (channels kept in
`[0,255]` by construction everywhere they are produced). -/
structure Color where
  r : Nat
  g : Nat
  b : Nat
deriving DecidableEq

/-- Squared Euclidean distance between two colors, as computed (over `i32`)
by the `min_by_key` closure in src/palette.rs `get_nearest_color`, and as
compared (through the monotone `f32` square root, see the header note) by
`color_distance` in src/filter.rs. -/
def dist2 (p c : Color) : Int :=
  let dr : Int := (p.r : Int) - (c.r : Int)
  let dg : Int := (p.g : Int) - (c.g : Int)
  let db : Int := (p.b : Int) - (c.b : Int)
  dr * dr + dg * dg + db * db

/-- The fold underlying Rust's `Iterator::min_by` / `min_by_key`: keep the
current minimum, replacing it only when a strictly smaller key appears, so
ties resolve to the earliest element. -/
def minByAux (key : Color → Int) : Color → List Color → Color
  | m, [] => m
  | m, c :: rest => minByAux key (if key c < key m then c else m) rest

/-- Rust's `min_by_key` on a list: `none` on an empty list, otherwise the
first-tie-break minimum. -/
def minByList (key : Color → Int) : List Color → Option Color
  | [] => none
  | p :: ps => some (minByAux key p ps)

/-- `GB_PALETTE` from src/filter.rs lines 11-19: the fixed 7-color palette
hard-coded in the filter module. -/
def GB_PALETTE : List Color :=
  [⟨32, 32, 32⟩, ⟨128, 255, 0⟩, ⟨255, 255, 102⟩, ⟨51, 255, 255⟩,
   ⟨127, 0, 255⟩, ⟨255, 51, 153⟩, ⟨255, 128, 0⟩]

/-- `get_nearest_color` from src/filter.rs lines 28-35: minimum of
`GB_PALETTE` under `color_distance` (ordering embedded via `dist2`, see the
header note), ties to the earliest entry (`min_by`).  The `.unwrap()` cannot
fail since `GB_PALETTE` is non-empty; the `none` branch is unreachable. -/
def get_nearest_color (color : Color) : Color :=
  match minByList (fun q => dist2 q color) GB_PALETTE with
  | some c => c
  | none => color

namespace PaletteStore

/-- The initializer of `ACTIVE_PALETTE` in src/palette.rs lines 32-43: the
8-color default (black, white, red, green, blue, yellow, magenta, cyan). -/
def defaultActivePalette : List Color :=
  [⟨0, 0, 0⟩, ⟨255, 255, 255⟩, ⟨255, 0, 0⟩, ⟨0, 255, 0⟩,
   ⟨0, 0, 255⟩, ⟨255, 255, 0⟩, ⟨255, 0, 255⟩, ⟨0, 255, 255⟩]

/-- `get_nearest_color` from src/palette.rs lines 54-73, with the contents of
the `ACTIVE_PALETTE` `RwLock` made an explicit parameter (the successful
read-lock branch; lock poisoning is outside a sequential embedding and only
yields the identity fallback).  Empty palette: return the color unchanged;
otherwise `min_by_key` on squared `i32` distance with `unwrap_or(color)`. -/
def get_nearest_color (palette : List Color) (color : Color) : Color :=
  if palette.isEmpty then color
  else
    match minByList (fun q => dist2 q color) palette with
    | some c => c
    | none => color

end PaletteStore

/-- A 3-channel raster (`RgbImage` / the `DynamicImage` flowing through the
pipeline, which always holds an RGB raster at the points the embedding
models). -/
structure RgbImage where
  width : Nat
  height : Nat
  pixel : Nat → Nat → Color

/-- A 1-channel raster (`GrayImage`). -/
structure GrayImage where
  width : Nat
  height : Nat
  pixel : Nat → Nat → Nat

/-- `put_pixel` on a grayscale buffer. -/
def GrayImage.set (img : GrayImage) (x y : Nat) (v : Nat) : GrayImage :=
  { img with pixel := fun a b => if a = x ∧ b = y then v else img.pixel a b }

/-- Rust's `.clamp(0, 255) as u8` on an `i16` value. -/
def clamp255 (v : Int) : Nat := (min v 255).toNat

/-- The read-modify-write pattern used for every neighbor update in
`floyd_steinberg_dithering`: read the neighbor's current value as `i16`, add
the (already divided) error share, clamp to `[0,255]`, write back. -/
def addClamped (img : GrayImage) (x y : Nat) (d : Int) : GrayImage :=
  img.set x y (clamp255 ((img.pixel x y : Int) + d))

/-- `apply_palette` from src/filter.rs lines 46-55: every pixel is replaced by
`get_nearest_color` of itself — the filter module's ownGB-palette search. -/
def apply_palette (input_image : RgbImage) : RgbImage :=
  { width := input_image.width
    height := input_image.height
    pixel := fun x y => get_nearest_color (input_image.pixel x y) }

/-- `quantize` from src/filter.rs lines 57-59. -/
def quantize (value : Nat) : Nat := if value < 128 then 0 else 255

/-- `grayscale` from src/filter.rs lines 61-71.  The source computes
`0.299*r + 0.587*g + 0.114*b` in `f32` and truncates with `as u8`; this is
modelled by the exact rational computation `(299*r + 587*g + 114*b) / 1000`
(floor).  No theorem below depends on the value of a pixel at which the `f32`
rounding of the sum could cross an integer boundary: the concrete inputs used
are `(0,0,0) ↦ 0` (exact in both) and `(0,255,0) ↦ 149` (`f32` value
`149.685⋯`, far from an integer), and all other uses are agnostic to the
luma values. -/
def grayscale (image : RgbImage) : GrayImage :=
  { width := image.width
    height := image.height
    pixel := fun x y =>
      (299 * (image.pixel x y).r + 587 * (image.pixel x y).g +
        114 * (image.pixel x y).b) / 1000 }

/-- The body of the double loop in `floyd_steinberg_dithering`
(src/filter.rs lines 78-102) for one pixel `(x, y)`: quantize, write, then
distribute the error to the in-bounds east, south-west, south and south-east
neighbors with weights 7/16, 3/16, 5/16, 1/16 (truncating `i16` division,
`Int.tdiv`), clamping each write to `[0,255]`.  `w`, `h` are the dimensions
read once before the loop. -/
def fsPixel (w h : Nat) (img : GrayImage) (x y : Nat) : GrayImage :=
  let old_pixel : Nat := img.pixel x y
  let new_pixel : Nat := quantize old_pixel
  let error : Int := (old_pixel : Int) - (new_pixel : Int)
  let i1 : GrayImage := img.set x y new_pixel
  let i2 : GrayImage :=
    if x + 1 < w then addClamped i1 (x + 1) y ((error * 7).tdiv 16) else i1
  if y + 1 < h then
    let i3 : GrayImage :=
      if 0 < x then addClamped i2 (x - 1) (y + 1) ((error * 3).tdiv 16) else i2
    let i4 : GrayImage := addClamped i3 x (y + 1) ((error * 5).tdiv 16)
    if x + 1 < w then addClamped i4 (x + 1) (y + 1) ((error * 1).tdiv 16) else i4
  else i2

/-- The inner `for x in 0..width` loop of `floyd_steinberg_dithering`,
unrolled from the left: `fsRowAux w h y img n` has processed columns
`0, 1, …, n-1` of row `y` in ascending order. -/
def fsRowAux (w h y : Nat) : GrayImage → Nat → GrayImage
  | img, 0 => img
  | img, n + 1 => fsPixel w h (fsRowAux w h y img n) n y

/-- The outer `for y in 0..height` loop: `fsRowsAux w h img m` has processed
rows `0, …, m-1`, each over the full width `w`. -/
def fsRowsAux (w h : Nat) : GrayImage → Nat → GrayImage
  | img, 0 => img
  | img, m + 1 => fsRowAux w h m (fsRowsAux w h img m) w

/-- `floyd_steinberg_dithering` from src/filter.rs lines 73-106: raster-scan
error diffusion in place on a copy of the input. -/
def floyd_steinberg_dithering (image : GrayImage) : GrayImage :=
  fsRowsAux image.width image.height image image.height

/-- `apply_floyd_steinberg_dithering` from src/filter.rs lines 108-112:
luma extraction followed by error diffusion. -/
def apply_floyd_steinberg_dithering (image : RgbImage) : GrayImage :=
  floyd_steinberg_dithering (grayscale image)

/-- The error-diffusion weight table exactly as the design document states it:
offsets and numerators for the east, south-west, south and south-east
neighbors. -/
def neighborWeights : List (Int × Int × Int) :=
  [(1, 0, 7), (-1, 1, 3), (0, 1, 5), (1, 1, 1)]

/-- One diffusion step as the design document words it: for each table entry,
if the neighbor is inside the image bounds, add `error * weight / 16`
(truncating division) to its current value and clamp to `[0,255]`; neighbors
outside the bounds are skipped and their weight dropped. -/
def diffuseSpec (w h x y : Nat) (error : Int) (img : GrayImage) : GrayImage :=
  neighborWeights.foldl
    (fun im nbr =>
      let nx : Int := (x : Int) + nbr.1
      let ny : Int := (y : Int) + nbr.2.1
      if 0 ≤ nx ∧ nx < (w : Int) ∧ 0 ≤ ny ∧ ny < (h : Int) then
        addClamped im nx.toNat ny.toNat ((error * nbr.2.2).tdiv 16)
      else im)
    img

/-- One pixel of the dithering pass as the design document words it:
threshold at 128, error = input − output, then `diffuseSpec`. -/
def fsPixelSpec (w h : Nat) (img : GrayImage) (x y : Nat) : GrayImage :=
  let input : Nat := img.pixel x y
  let output : Nat := if input < 128 then 0 else 255
  let error : Int := (input : Int) - (output : Int)
  diffuseSpec w h x y error (img.set x y output)

/-- Row traversal (left to right) of the document's description. -/
def fsRowAuxSpec (w h y : Nat) : GrayImage → Nat → GrayImage
  | img, 0 => img
  | img, n + 1 => fsPixelSpec w h (fsRowAuxSpec w h y img n) n y

/-- Row-major traversal (top to bottom) of the document's description. -/
def fsRowsAuxSpec (w h : Nat) : GrayImage → Nat → GrayImage
  | img, 0 => img
  | img, m + 1 => fsRowAuxSpec w h m (fsRowsAuxSpec w h img m) w

/-- Floyd–Steinberg dithering exactly as the design document describes it
(row-major scan of `fsPixelSpec`), to be compared with the source-derived
`floyd_steinberg_dithering`. -/
def floydSteinbergSpec (image : GrayImage) : GrayImage :=
  fsRowsAuxSpec image.width image.height image image.height

/-- Modelled from the spec: `imageops::resize(…, FilterType::Nearest)` of the
external `image` crate (not part of this repository's sources) —
"nearest-neighbor sampling" to the target dimensions.  Only the dimensions of
its output matter to any theorem below; the sample positions are the
straightforward proportional ones. -/
def resizeNearest (img : RgbImage) (nwidth nheight : Nat) : RgbImage :=
  { width := nwidth
    height := nheight
    pixel := fun x y =>
      img.pixel (x * img.width / nwidth) (y * img.height / nheight) }

/-- `pixelate` from src/filter.rs lines 114-122: downsample by integer-divided
dimensions, then upsample back — with no validation of `pixel_size`
whatsoever. -/
def pixelate (image : RgbImage) (pixel_size : Nat) : RgbImage :=
  let width : Nat := image.width
  let height : Nat := image.height
  let small_width : Nat := width / pixel_size
  let small_height : Nat := height / pixel_size
  resizeNearest (resizeNearest image small_width small_height) width height

/-- `DynamicImage::ImageLuma8(gray)` converted back to RGB (both the
`.into()` + `get_pixel` path of the Palette branch and the `into_rgb8()` of
the Pixelate branch): the single luma channel is replicated into r, g, b. -/
def grayToRgb (g : GrayImage) : RgbImage :=
  { width := g.width
    height := g.height
    pixel := fun x y => ⟨g.pixel x y, g.pixel x y, g.pixel x y⟩ }

/-- `FilterOperation` from src/filter.rs lines 124-129.  The enum has exactly
these three constructors; there is no inversion operation. -/
inductive FilterOperation where
  | Palette
  | Pixelate (size : Nat)
  | FloydSteinberg
deriving DecidableEq

/-- The mutable state of the loop in `apply` (src/filter.rs lines 191-222):
the current `DynamicImage` and the optional dithered `GrayImage`
(`gray_image_option`).  `grayOpt = some g` is the Tone state of the design
document, `none` its FullColor state. -/
structure PipelineState where
  image : RgbImage
  grayOpt : Option GrayImage

/-- One iteration of the operation loop in `apply` (src/filter.rs lines
193-221).  Palette/Pixelate first fold a pending gray image back into
`image` (Tone → FullColor promotion) and clear it; FloydSteinberg dithers
`image` — the retained full-color image, which is *not* updated when a gray
image is already pending — and stores the result in `grayOpt`. -/
def applyOp (s : PipelineState) (op : FilterOperation) : PipelineState :=
  match op with
  | .Palette =>
    let base : RgbImage :=
      match s.grayOpt with
      | some gray => grayToRgb gray
      | none => s.image
    { image := apply_palette base, grayOpt := none }
  | .Pixelate size =>
    let base : RgbImage :=
      match s.grayOpt with
      | some gray => grayToRgb gray
      | none => s.image
    { image := pixelate base size, grayOpt := none }
  | .FloydSteinberg =>
    { image := s.image
      grayOpt := some (apply_floyd_steinberg_dithering s.image) }

/-- The whole `for op in operations` loop. -/
def runOps (s : PipelineState) : List FilterOperation → PipelineState
  | [] => s
  | op :: rest => runOps (applyOp s op) rest

/-- All in-bounds channel values of an image are 8-bit.  Rust's `u8` typing
guarantees this for every raster the program builds. -/
def RgbImage.wf (img : RgbImage) : Prop :=
  ∀ x, x < img.width → ∀ y, y < img.height →
    (img.pixel x y).r ≤ 255 ∧ (img.pixel x y).g ≤ 255 ∧ (img.pixel x y).b ≤ 255

instance (img : RgbImage) : Decidable img.wf := by
  unfold RgbImage.wf; infer_instance

/-- Modelled from the spec: the Invert operation (§4.6, CLI token `-rev`),
which is absent from the source — `FilterOperation` has no inversion variant
and no code maps a channel to `255 − channel`.  Per the design document it
is the pure per-pixel map `channel ↦ 255 − channel`. -/
def invert (img : RgbImage) : RgbImage :=
  { width := img.width
    height := img.height
    pixel := fun x y =>
      ⟨255 - (img.pixel x y).r, 255 - (img.pixel x y).g, 255 - (img.pixel x y).b⟩ }

/-- A CLI token, as its character list (Lean `String` primitives are not
kernel-reducible, so the byte-level comparisons of the source are modelled on
`List Char`). -/
abbrev Tok := List Char

/-- A single decimal digit (codepoint 48-57), as accepted by Rust's `u32`
parser, with its numeric value. -/
def digitVal (c : Char) : Option Nat :=
  if '0' ≤ c ∧ c ≤ '9' then some (c.toNat - 48) else none

/-- Digit-string accumulation of Rust's `str::parse::<u32>`. -/
def parseDigits : List Char → Nat → Option Nat
  | [], acc => some acc
  | c :: cs, acc =>
    match digitVal c with
    | some d => parseDigits cs (acc * 10 + d)
    | none => none

/-- `str::parse::<u32>` from the source's `size_str.parse::<u32>()`: empty
input fails, an optional leading `'+'` is allowed before at least one digit,
all characters must be digits.  (The `u32` overflow failure for values
`> 2^32 - 1` is not modelled; no theorem below applies it to more than one
digit.) -/
def parseU32 : Tok → Option Nat
  | [] => none
  | '+' :: cs => if cs = [] then none else parseDigits cs 0
  | cs => parseDigits cs 0

/-- `str::strip_prefix`: `some rest` when the first argument is a prefix,
`none` otherwise (so `none` is also exactly `!starts_with`). -/
def stripHead : Tok → Tok → Option Tok
  | [], rest => some rest
  | _ :: _, [] => none
  | p :: ps, c :: cs => if c = p then stripHead ps cs else none

/-- The token `-pal`. -/
def palTok : Tok := ['-', 'p', 'a', 'l']

/-- The token `-pixpal`. -/
def pixpalTok : Tok := ['-', 'p', 'i', 'x', 'p', 'a', 'l']

/-- The token `-floyd`. -/
def floydTok : Tok := ['-', 'f', 'l', 'o', 'y', 'd']

/-- The token `-pix`. -/
def pixTok : Tok := ['-', 'p', 'i', 'x']

/-- The token `-rev` (named by the design document as the Invert token;
matched by no branch of the source's parser). -/
def revTok : Tok := ['-', 'r', 'e', 'v']

/-- The prefix `-pix=`. -/
def pixEqTok : Tok := ['-', 'p', 'i', 'x', '=']

/-- Where the control flow of `apply` (src/filter.rs lines 131-189) ends up
before any image operation runs: an early usage return, or the go-ahead with
the parsed operation list and the two paths.  Only `run` reaches
`image::open`; every other outcome returns before any image is touched. -/
inductive CliOutcome where
  | usage
  | invalidPixelSize (s : Tok)
  | unknownOperation (s : Tok)
  | noOperations
  | run (ops : List FilterOperation) (input output : Tok)
deriving DecidableEq

/-- The argument loop of `apply` (src/filter.rs lines 149-176), over the
tokens strictly between the program name and the two trailing paths.  Branch
order and effects exactly as in the source; in particular `-pix=0` parses
successfully, fails the `size != 0` test, and falls through silently —
nothing is pushed, nothing is printed, the loop continues. -/
def parseLoop : List Tok → List FilterOperation → CliOutcome ⊕ List FilterOperation
  | [], acc => Sum.inr acc
  | arg :: rest, acc =>
    if arg = palTok then parseLoop rest (acc ++ [.Palette])
    else if arg = pixpalTok then parseLoop rest (acc ++ [.Pixelate 8, .Palette])
    else if arg = floydTok then parseLoop rest (acc ++ [.FloydSteinberg])
    else
      match stripHead pixEqTok arg with
      | some size_str =>
        match parseU32 size_str with
        | some size =>
          if size ≠ 0 then parseLoop rest (acc ++ [.Pixelate size])
          else parseLoop rest acc
        | none => Sum.inl (.invalidPixelSize size_str)
      | none =>
        if arg = pixTok then parseLoop rest (acc ++ [.Pixelate 8])
        else Sum.inl (.unknownOperation arg)

/-- `apply`'s argument handling (src/filter.rs lines 131-189): fewer than 3
arguments prints usage and returns; otherwise the loop runs over
`args[1 .. len-3]`, an empty operation list is reported, and only then would
the image be opened. -/
def parseArgs (args : List Tok) : CliOutcome :=
  if args.length < 3 then .usage
  else
    match parseLoop ((args.drop 1).take (args.length - 3)) [] with
    | Sum.inl e => e
    | Sum.inr ops =>
      if ops.isEmpty then .noOperations
      else .run ops ((args.drop (args.length - 2)).headD [])
             ((args.drop (args.length - 1)).headD [])

/-- A 1×1 all-black test image. -/
def blackImg1 : RgbImage := ⟨1, 1, fun _ _ => ⟨0, 0, 0⟩⟩

/-- A 1×1 all-green test image. -/
def greenImg1 : RgbImage := ⟨1, 1, fun _ _ => ⟨0, 255, 0⟩⟩

/-- A 2×2 constant test image. -/
def img22 : RgbImage := ⟨2, 2, fun _ _ => ⟨10, 20, 30⟩⟩

/-- A 1×1 grayscale test image of value 200. -/
def gray200 : GrayImage := ⟨1, 1, fun _ _ => 200⟩

/-- The token list `prog -pix=0 -pal in.png out.png`. -/
def argsPixZero : List Tok :=
  [['p', 'r', 'o', 'g'], pixEqTok ++ ['0'], palTok,
   ['i', 'n', '.', 'p', 'n', 'g'], ['o', 'u', 't', '.', 'p', 'n', 'g']]

/-- The token list `prog -rev in.png out.png`. -/
def argsRev : List Tok :=
  [['p', 'r', 'o', 'g'], revTok,
   ['i', 'n', '.', 'p', 'n', 'g'], ['o', 'u', 't', '.', 'p', 'n', 'g']]

/-! ## Basic facts about the raster primitives -/

@[simp]
theorem GrayImage.set_width (img : GrayImage) (x y v : Nat) :
    (img.set x y v).width = img.width := rfl

@[simp]
theorem GrayImage.set_height (img : GrayImage) (x y v : Nat) :
    (img.set x y v).height = img.height := rfl

@[simp]
theorem addClamped_width (img : GrayImage) (x y : Nat) (d : Int) :
    (addClamped img x y d).width = img.width := rfl

@[simp]
theorem addClamped_height (img : GrayImage) (x y : Nat) (d : Int) :
    (addClamped img x y d).height = img.height := rfl

theorem GrayImage.set_pixel_same (img : GrayImage) (x y v : Nat) :
    (img.set x y v).pixel x y = v := by
  simp [GrayImage.set]

theorem GrayImage.set_pixel_ne (img : GrayImage) (x y v a b : Nat)
    (h : ¬(a = x ∧ b = y)) : (img.set x y v).pixel a b = img.pixel a b := by
  simp [GrayImage.set, h]

theorem addClamped_pixel_ne (img : GrayImage) (x y : Nat) (d : Int) (a b : Nat)
    (h : ¬(a = x ∧ b = y)) : (addClamped img x y d).pixel a b = img.pixel a b := by
  simp [addClamped, GrayImage.set, h]

theorem gray_eq_of_parts {u v : GrayImage} (hw : u.width = v.width)
    (hh : u.height = v.height) (hp : ∀ a b, u.pixel a b = v.pixel a b) : u = v := by
  cases u
  cases v
  simp_all
  funext a b
  exact hp a b

theorem rgb_eq_of_parts {u v : RgbImage} (hw : u.width = v.width)
    (hh : u.height = v.height) (hp : ∀ a b, u.pixel a b = v.pixel a b) : u = v := by
  cases u
  cases v
  simp_all
  funext a b
  exact hp a b

theorem fsPixel_width (w h : Nat) (img : GrayImage) (x y : Nat) :
    (fsPixel w h img x y).width = img.width := by
  simp only [fsPixel, apply_ite GrayImage.width, addClamped_width,
    GrayImage.set_width, ite_self]

theorem fsPixel_height (w h : Nat) (img : GrayImage) (x y : Nat) :
    (fsPixel w h img x y).height = img.height := by
  simp only [fsPixel, apply_ite GrayImage.height, addClamped_height,
    GrayImage.set_height, ite_self]

theorem fsRowAux_width (w h y : Nat) (img : GrayImage) :
    ∀ n, (fsRowAux w h y img n).width = img.width := by
  intro n
  induction n with
  | zero => rfl
  | succ n ih => simp [fsRowAux, fsPixel_width, ih]

theorem fsRowAux_height (w h y : Nat) (img : GrayImage) :
    ∀ n, (fsRowAux w h y img n).height = img.height := by
  intro n
  induction n with
  | zero => rfl
  | succ n ih => simp [fsRowAux, fsPixel_height, ih]

theorem fsRowsAux_width (w h : Nat) (img : GrayImage) :
    ∀ m, (fsRowsAux w h img m).width = img.width := by
  intro m
  induction m with
  | zero => rfl
  | succ m ih => simp [fsRowsAux, fsRowAux_width, ih]

theorem fsRowsAux_height (w h : Nat) (img : GrayImage) :
    ∀ m, (fsRowsAux w h img m).height = img.height := by
  intro m
  induction m with
  | zero => rfl
  | succ m ih => simp [fsRowsAux, fsRowAux_height, ih]

theorem floyd_width (image : GrayImage) :
    (floyd_steinberg_dithering image).width = image.width := by
  simp [floyd_steinberg_dithering, fsRowsAux_width]

theorem floyd_height (image : GrayImage) :
    (floyd_steinberg_dithering image).height = image.height := by
  simp [floyd_steinberg_dithering, fsRowsAux_height]

/-! ## The first-tie-break minimum fold -/

theorem minByAux_spec (key : Color → Int) :
    ∀ (l : List Color) (m : Color),
      ∃ i, i < (m :: l).length ∧ (m :: l).get? i = some (minByAux key m l) ∧
        (∀ j q, (m :: l).get? j = some q → key (minByAux key m l) ≤ key q) ∧
        (∀ j q, j < i → (m :: l).get? j = some q → key (minByAux key m l) < key q) := by
  intro l
  induction l with
  | nil =>
    intro m
    refine ⟨0, by simp, by simp [minByAux], ?_, ?_⟩
    · intro j q hq
      cases j with
      | zero =>
        simp at hq
        subst hq
        simp [minByAux]
      | succ n => simp at hq
    · intro j q hj
      exact absurd hj (Nat.not_lt_zero j)
  | cons c rest ih =>
    intro m
    by_cases hcm : key c < key m
    · obtain ⟨i, hi, hget, hmin, hlt⟩ := ih c
      have hr : minByAux key m (c :: rest) = minByAux key c rest := by
        simp [minByAux, if_pos hcm]
      rw [hr]
      refine ⟨i + 1, by simpa using Nat.succ_lt_succ hi, by simpa using hget, ?_, ?_⟩
      · intro j q hq
        cases j with
        | zero =>
          simp at hq
          subst hq
          have h0 : key (minByAux key c rest) ≤ key c := hmin 0 c (by simp)
          omega
        | succ n => exact hmin n q (by simpa using hq)
      · intro j q hj hq
        cases j with
        | zero =>
          simp at hq
          subst hq
          have h0 : key (minByAux key c rest) ≤ key c := hmin 0 c (by simp)
          omega
        | succ n => exact hlt n q (by omega) (by simpa using hq)
    · obtain ⟨i, hi, hget, hmin, hlt⟩ := ih m
      have hr : minByAux key m (c :: rest) = minByAux key m rest := by
        simp [minByAux, if_neg hcm]
      rw [hr]
      cases i with
      | zero =>
        have hm : minByAux key m rest = m := by
          simp at hget
          exact hget.symm
        refine ⟨0, by simp, by simp [hm], ?_, ?_⟩
        · intro j q hq
          cases j with
          | zero =>
            simp at hq
            subst hq
            exact hmin 0 m (by simp)
          | succ n =>
            cases n with
            | zero =>
              simp at hq
              subst hq
              have h0 : key (minByAux key m rest) ≤ key m := hmin 0 m (by simp)
              omega
            | succ k => exact hmin (k + 1) q (by simpa using hq)
        · intro j q hj
          exact absurd hj (Nat.not_lt_zero j)
      | succ k =>
        refine ⟨k + 2, ?_, by simpa using hget, ?_, ?_⟩
        · simp at hi ⊢
          omega
        · intro j q hq
          cases j with
          | zero =>
            simp at hq
            subst hq
            exact hmin 0 m (by simp)
          | succ n =>
            cases n with
            | zero =>
              simp at hq
              subst hq
              have h0 : key (minByAux key m rest) ≤ key m := hmin 0 m (by simp)
              omega
            | succ j' => exact hmin (j' + 1) q (by simpa using hq)
        · intro j q hj hq
          cases j with
          | zero =>
            simp at hq
            subst hq
            exact hlt 0 m (Nat.succ_pos k) (by simp)
          | succ n =>
            cases n with
            | zero =>
              simp at hq
              subst hq
              have h0 : key (minByAux key m rest) < key m :=
                hlt 0 m (Nat.succ_pos k) (by simp)
              omega
            | succ j' => exact hlt (j' + 1) q (by omega) (by simpa using hq)

/-! ## The source dithering loop versus the document's description -/

theorem fsPixel_eq_spec (w h : Nat) (img : GrayImage) (x y : Nat)
    (hx : x < w) (hy : y < h) : fsPixel w h img x y = fsPixelSpec w h img x y := by
  have c1 : ((x : Int) + 1).toNat = x + 1 := by omega
  have c2 : ((x : Int) + (-1)).toNat = x - 1 := by omega
  have c3 : ((y : Int) + 0).toNat = y := by omega
  have c4 : ((y : Int) + 1).toNat = y + 1 := by omega
  have e1 : (0 ≤ (x : Int) + 1 ∧ (x : Int) + 1 < (w : Int) ∧ 0 ≤ (y : Int) + 0 ∧
      (y : Int) + 0 < (h : Int)) ↔ x + 1 < w := by omega
  have e2 : (0 ≤ (x : Int) + (-1) ∧ (x : Int) + (-1) < (w : Int) ∧ 0 ≤ (y : Int) + 1 ∧
      (y : Int) + 1 < (h : Int)) ↔ (0 < x ∧ y + 1 < h) := by omega
  have e3 : (0 ≤ (x : Int) + 0 ∧ (x : Int) + 0 < (w : Int) ∧ 0 ≤ (y : Int) + 1 ∧
      (y : Int) + 1 < (h : Int)) ↔ y + 1 < h := by omega
  have e4 : (0 ≤ (x : Int) + 1 ∧ (x : Int) + 1 < (w : Int) ∧ 0 ≤ (y : Int) + 1 ∧
      (y : Int) + 1 < (h : Int)) ↔ (x + 1 < w ∧ y + 1 < h) := by omega
  simp only [fsPixel, fsPixelSpec, diffuseSpec, neighborWeights, List.foldl_cons,
    List.foldl_nil, quantize]
  simp only [c1, c2, c3, c4, e1, e2, e3, e4]
  split_ifs <;> first | rfl | omega

theorem fsRowAux_eq_spec (w h y : Nat) (hy : y < h) (img : GrayImage) :
    ∀ n, n ≤ w → fsRowAux w h y img n = fsRowAuxSpec w h y img n := by
  intro n
  induction n with
  | zero => intro _; rfl
  | succ n ih =>
    intro hn
    have hxn : n < w := by omega
    simp [fsRowAux, fsRowAuxSpec, ih (by omega), fsPixel_eq_spec w h _ n y hxn hy]

theorem fsRowsAux_eq_spec (w h : Nat) (img : GrayImage) :
    ∀ m, m ≤ h → fsRowsAux w h img m = fsRowsAuxSpec w h img m := by
  intro m
  induction m with
  | zero => intro _; rfl
  | succ m ih =>
    intro hm
    simp [fsRowsAux, fsRowsAuxSpec, ih (by omega),
      fsRowAux_eq_spec w h m (by omega) _ w le_rfl]

/-! ## Binariness of the dithered output -/

theorem quantize_binary (v : Nat) : quantize v = 0 ∨ quantize v = 255 := by
  unfold quantize
  split <;> simp

theorem fsPixel_pixel_lt (w h : Nat) (img : GrayImage) (x y a b : Nat)
    (hab : b < y ∨ (b = y ∧ a < x)) :
    (fsPixel w h img x y).pixel a b = img.pixel a b := by
  have hne1 : ¬(a = x ∧ b = y) := by omega
  have hne2 : ¬(a = x + 1 ∧ b = y) := by omega
  have hne3 : ¬(a = x - 1 ∧ b = y + 1) := by omega
  have hne4 : ¬(a = x ∧ b = y + 1) := by omega
  have hne5 : ¬(a = x + 1 ∧ b = y + 1) := by omega
  simp only [fsPixel]
  split_ifs <;>
    simp only [addClamped, GrayImage.set, hne1, hne2, hne3, hne4, hne5,
      if_false, ite_false]

theorem fsPixel_pixel_self (w h : Nat) (img : GrayImage) (x y : Nat) :
    (fsPixel w h img x y).pixel x y = quantize (img.pixel x y) := by
  simp only [fsPixel]
  split_ifs <;> simp only [addClamped, GrayImage.set] <;> split_ifs <;>
    first | omega | simp_all

theorem fsRowAux_pixel_prev (w h y : Nat) (img : GrayImage) :
    ∀ n a b, b < y → (fsRowAux w h y img n).pixel a b = img.pixel a b := by
  intro n
  induction n with
  | zero => intro a b _; rfl
  | succ n ih =>
    intro a b hb
    rw [fsRowAux, fsPixel_pixel_lt w h _ n y a b (Or.inl hb)]
    exact ih a b hb

theorem fsRowAux_pixel_binary (w h y : Nat) (img : GrayImage) :
    ∀ n a, a < n →
      (fsRowAux w h y img n).pixel a y = 0 ∨ (fsRowAux w h y img n).pixel a y = 255 := by
  intro n
  induction n with
  | zero => intro a ha; exact absurd ha (Nat.not_lt_zero a)
  | succ n ih =>
    intro a ha
    by_cases han : a = n
    · subst han
      rw [fsRowAux, fsPixel_pixel_self]
      exact quantize_binary _
    · have ha' : a < n := by omega
      rw [fsRowAux, fsPixel_pixel_lt w h _ n y a y (Or.inr ⟨rfl, ha'⟩)]
      exact ih a ha'

theorem fsRowsAux_pixel_binary (w h : Nat) (img : GrayImage) :
    ∀ m a b, b < m → a < w →
      (fsRowsAux w h img m).pixel a b = 0 ∨ (fsRowsAux w h img m).pixel a b = 255 := by
  intro m
  induction m with
  | zero => intro a b hb _; exact absurd hb (Nat.not_lt_zero b)
  | succ m ih =>
    intro a b hb ha
    rw [fsRowsAux]
    by_cases hbm : b = m
    · subst hbm
      exact fsRowAux_pixel_binary w h b _ w a ha
    · have hb' : b < m := by omega
      rw [fsRowAux_pixel_prev w h m _ w a b hb']
      exact ih a b hb' ha

theorem floyd_binary (image : GrayImage) (a b : Nat)
    (ha : a < image.width) (hb : b < image.height) :
    (floyd_steinberg_dithering image).pixel a b = 0 ∨
      (floyd_steinberg_dithering image).pixel a b = 255 := by
  unfold floyd_steinberg_dithering
  exact fsRowsAux_pixel_binary image.width image.height image image.height a b hb ha

/-! ## Error diffusion is the identity on an already binary image -/

theorem set_self_pixel (img : GrayImage) (x y : Nat) :
    ∀ a b, (img.set x y (img.pixel x y)).pixel a b = img.pixel a b := by
  intro a b
  by_cases hab : a = x ∧ b = y
  · obtain ⟨rfl, rfl⟩ := hab
    simp [GrayImage.set]
  · exact GrayImage.set_pixel_ne img x y _ a b hab

theorem noop_step (img base : GrayImage) (X Y : Nat)
    (hpix : ∀ a b, img.pixel a b = base.pixel a b) (hb : base.pixel X Y ≤ 255) :
    ∀ a b, (addClamped img X Y 0).pixel a b = base.pixel a b := by
  intro a b
  by_cases hab : a = X ∧ b = Y
  · obtain ⟨rfl, rfl⟩ := hab
    have hv : (addClamped img a b 0).pixel a b = clamp255 ((img.pixel a b : Int) + 0) := by
      simp [addClamped, GrayImage.set]
    rw [hv, hpix a b]
    simp only [clamp255]
    omega
  · rw [addClamped_pixel_ne _ _ _ _ _ _ hab]
    exact hpix a b

theorem fsPixel_noop (w h : Nat) (img : GrayImage) (x y : Nat)
    (hbin : ∀ a b, a < w → b < h → img.pixel a b = 0 ∨ img.pixel a b = 255)
    (hx : x < w) (hy : y < h) :
    ∀ a b, (fsPixel w h img x y).pixel a b = img.pixel a b := by
  have hle : ∀ a b, a < w → b < h → img.pixel a b ≤ 255 := by
    intro a b ha hb
    rcases hbin a b ha hb with hv | hv <;> omega
  have hq : quantize (img.pixel x y) = img.pixel x y := by
    rcases hbin x y hx hy with hv | hv <;> simp [quantize, hv]
  have s0 := set_self_pixel img x y
  simp only [fsPixel, hq, Int.sub_self, zero_mul, Int.zero_tdiv]
  split_ifs
  · -- y+1<h, x+1<w, 0<x: east, south-west, south, south-east all written
    exact noop_step _ img (x + 1) (y + 1)
      (noop_step _ img x (y + 1)
        (noop_step _ img (x - 1) (y + 1)
          (noop_step _ img (x + 1) y s0 (hle (x + 1) y ‹x + 1 < w› hy))
          (hle (x - 1) (y + 1) (by omega) ‹y + 1 < h›))
        (hle x (y + 1) hx ‹y + 1 < h›))
      (hle (x + 1) (y + 1) ‹x + 1 < w› ‹y + 1 < h›)
  · -- y+1<h, x+1<w, x = 0: no south-west write
    exact noop_step _ img (x + 1) (y + 1)
      (noop_step _ img x (y + 1)
        (noop_step _ img (x + 1) y s0 (hle (x + 1) y ‹x + 1 < w› hy))
        (hle x (y + 1) hx ‹y + 1 < h›))
      (hle (x + 1) (y + 1) ‹x + 1 < w› ‹y + 1 < h›)
  · -- y+1<h, last column, 0<x: south-west and south written
    exact noop_step _ img x (y + 1)
      (noop_step _ img (x - 1) (y + 1) s0 (hle (x - 1) (y + 1) (by omega) ‹y + 1 < h›))
      (hle x (y + 1) hx ‹y + 1 < h›)
  · -- y+1<h, last column, x = 0: only south written
    exact noop_step _ img x (y + 1) s0 (hle x (y + 1) hx ‹y + 1 < h›)
  · -- last row, x+1<w: only east written
    exact noop_step _ img (x + 1) y s0 (hle (x + 1) y ‹x + 1 < w› hy)
  · -- last row, last column: only the pixel itself rewritten
    exact s0

theorem fsRowAux_noop (w h y : Nat) (img : GrayImage)
    (hbin : ∀ a b, a < w → b < h → img.pixel a b = 0 ∨ img.pixel a b = 255)
    (hy : y < h) :
    ∀ n, n ≤ w → ∀ a b, (fsRowAux w h y img n).pixel a b = img.pixel a b := by
  intro n
  induction n with
  | zero => intro _ a b; rfl
  | succ n ih =>
    intro hn a b
    have ihp := ih (by omega)
    have hbin' : ∀ a b, a < w → b < h →
        (fsRowAux w h y img n).pixel a b = 0 ∨ (fsRowAux w h y img n).pixel a b = 255 := by
      intro a b ha hb
      rw [ihp a b]
      exact hbin a b ha hb
    rw [fsRowAux, fsPixel_noop w h _ n y hbin' (by omega) hy a b]
    exact ihp a b

theorem fsRowsAux_noop (w h : Nat) (img : GrayImage)
    (hbin : ∀ a b, a < w → b < h → img.pixel a b = 0 ∨ img.pixel a b = 255) :
    ∀ m, m ≤ h → ∀ a b, (fsRowsAux w h img m).pixel a b = img.pixel a b := by
  intro m
  induction m with
  | zero => intro _ a b; rfl
  | succ m ih =>
    intro hm a b
    have ihp := ih (by omega)
    have hbin' : ∀ a b, a < w → b < h →
        (fsRowsAux w h img m).pixel a b = 0 ∨ (fsRowsAux w h img m).pixel a b = 255 := by
      intro a b ha hb
      rw [ihp a b]
      exact hbin a b ha hb
    rw [fsRowsAux, fsRowAux_noop w h m _ hbin' (by omega) w le_rfl a b]
    exact ihp a b

theorem floyd_id_of_binary (g : GrayImage)
    (hbin : ∀ a b, a < g.width → b < g.height → g.pixel a b = 0 ∨ g.pixel a b = 255) :
    floyd_steinberg_dithering g = g := by
  refine gray_eq_of_parts (floyd_width g) (floyd_height g) ?_
  intro a b
  unfold floyd_steinberg_dithering
  exact fsRowsAux_noop g.width g.height g hbin g.height le_rfl a b

/-! ## Consequences for the nearest-color searches -/

theorem mem_of_getq : ∀ (l : List Color) (i : Nat) (q : Color), l.get? i = some q → q ∈ l := by
  intro l
  induction l with
  | nil => intro i q hq; simp at hq
  | cons a t ih =>
    intro i q hq
    cases i with
    | zero =>
      simp at hq
      subst hq
      exact List.mem_cons_self a t
    | succ n => exact List.mem_cons_of_mem a (ih n q (by simpa using hq))

theorem getq_of_mem : ∀ (l : List Color) (q : Color), q ∈ l → ∃ i, l.get? i = some q := by
  intro l
  induction l with
  | nil => intro q hq; simp at hq
  | cons a t ih =>
    intro q hq
    rcases List.mem_cons.mp hq with hq | hq
    · exact ⟨0, by simp [hq]⟩
    · obtain ⟨i, hi⟩ := ih q hq
      exact ⟨i + 1, by simpa using hi⟩

theorem nearest_gb_char (color : Color) :
    ∃ i, i < GB_PALETTE.length ∧ GB_PALETTE.get? i = some (get_nearest_color color) ∧
      (∀ j q, GB_PALETTE.get? j = some q →
        dist2 (get_nearest_color color) color ≤ dist2 q color) ∧
      (∀ j q, j < i → GB_PALETTE.get? j = some q →
        dist2 (get_nearest_color color) color < dist2 q color) :=
  minByAux_spec (fun q => dist2 q color)
    [⟨128, 255, 0⟩, ⟨255, 255, 102⟩, ⟨51, 255, 255⟩, ⟨127, 0, 255⟩,
     ⟨255, 51, 153⟩, ⟨255, 128, 0⟩] ⟨32, 32, 32⟩

theorem nearest_gb_mem (color : Color) : get_nearest_color color ∈ GB_PALETTE := by
  obtain ⟨i, _, hget, _, _⟩ := nearest_gb_char color
  exact mem_of_getq _ i _ hget

theorem gb_fixed : ∀ p ∈ GB_PALETTE, get_nearest_color p = p := by decide

/-! ## The Tone-state invariant of the operation loop -/

theorem runOps_tone_invariant (ops : List FilterOperation) :
    ∀ (s : PipelineState),
      (∀ g, s.grayOpt = some g → g = apply_floyd_steinberg_dithering s.image) →
      ∀ g, (runOps s ops).grayOpt = some g →
        g = apply_floyd_steinberg_dithering (runOps s ops).image := by
  induction ops with
  | nil => intro s hs g hg; exact hs g hg
  | cons op rest ih =>
    intro s hs
    refine ih (applyOp s op) ?_
    intro g hg
    cases op with
    | Palette => simp [applyOp] at hg
    | Pixelate n => simp [applyOp] at hg
    | FloydSteinberg =>
      simp only [applyOp, Option.some.injEq] at hg
      simp only [applyOp]
      exact hg.symm

/-! ## Claim theorems -/

/-- C1 counterexample: on a 1×1 black image the Palette operation produces
the pixel (32,32,32) — the nearest entry of the hard-coded `GB_PALETTE` —
whereas `PaletteStore.nearest` on the process-wide default active palette
maps black to black.  The Palette operation therefore does not replace
pixels by `PaletteStore.nearest(pixel)`. -/
theorem palette_op_ignores_active_palette_cex :
    (apply_palette blackImg1).pixel 0 0 = ⟨32, 32, 32⟩ ∧
    PaletteStore.get_nearest_color PaletteStore.defaultActivePalette ⟨0, 0, 0⟩ = ⟨0, 0, 0⟩ ∧
    (⟨32, 32, 32⟩ : Color) ≠ ⟨0, 0, 0⟩ := by
  decide

/-- C1 amended: the Palette operation replaces every pixel by the nearest
entry (squared-Euclidean metric, compared through the monotone square root)
of the fixed 7-color `GB_PALETTE` hard-coded in filter.rs; the process-wide
active palette of palette.rs is never consulted. -/
theorem palette_op_uses_gb_palette (img : RgbImage) (x y : Nat) :
    (apply_palette img).pixel x y = get_nearest_color (img.pixel x y) ∧
    (apply_palette img).pixel x y ∈ GB_PALETTE ∧
    ∀ q ∈ GB_PALETTE,
      dist2 ((apply_palette img).pixel x y) (img.pixel x y) ≤ dist2 q (img.pixel x y) := by
  refine ⟨rfl, nearest_gb_mem _, ?_⟩
  intro q hq
  obtain ⟨i, _, _, hmin, _⟩ := nearest_gb_char (img.pixel x y)
  obtain ⟨j, hj⟩ := getq_of_mem GB_PALETTE q hq
  exact hmin j q hj

/-- C1 witness: the amended statement applied to the 1×1 black image. -/
theorem palette_op_uses_gb_palette_witness :
    (apply_palette blackImg1).pixel 0 0 = get_nearest_color (blackImg1.pixel 0 0) ∧
    dist2 ((apply_palette blackImg1).pixel 0 0) (blackImg1.pixel 0 0) ≤
      dist2 ⟨255, 128, 0⟩ (blackImg1.pixel 0 0) :=
  ⟨(palette_op_uses_gb_palette blackImg1 0 0).1,
   (palette_op_uses_gb_palette blackImg1 0 0).2.2 ⟨255, 128, 0⟩ (by decide)⟩

/-- C2: the source's Floyd–Steinberg pass equals the document's description —
row-major scan, threshold at 128, error = input − output, truncating shares
`error*7/16`, `error*3/16`, `error*5/16`, `error*1/16` added (clamped to
`[0,255]`) to the current values of the east, south-west, south and
south-east neighbors, with out-of-bounds neighbors skipped and their weight
dropped. -/
theorem floyd_steinberg_matches_document (image : GrayImage) :
    floyd_steinberg_dithering image = floydSteinbergSpec image :=
  fsRowsAux_eq_spec image.width image.height image image.height le_rfl

/-- C3: the Dither operation (a pure function, hence deterministic) stores a
single-channel image in the Tone slot of the pipeline state, and every
in-bounds pixel of that image is exactly 0 or 255. -/
theorem dither_tone_binary (s : PipelineState) :
    (applyOp s .FloydSteinberg).grayOpt = some (apply_floyd_steinberg_dithering s.image) ∧
    ∀ x y, x < (apply_floyd_steinberg_dithering s.image).width →
      y < (apply_floyd_steinberg_dithering s.image).height →
      (apply_floyd_steinberg_dithering s.image).pixel x y = 0 ∨
        (apply_floyd_steinberg_dithering s.image).pixel x y = 255 := by
  refine ⟨rfl, ?_⟩
  intro x y hx hy
  rw [apply_floyd_steinberg_dithering, floyd_width] at hx
  rw [apply_floyd_steinberg_dithering, floyd_height] at hy
  exact floyd_binary (grayscale s.image) x y hx hy

/-- C3 witness: the Dither step on a 1×1 black image. -/
theorem dither_tone_binary_witness :
    (applyOp ⟨blackImg1, none⟩ .FloydSteinberg).grayOpt =
      some (apply_floyd_steinberg_dithering blackImg1) ∧
    ((apply_floyd_steinberg_dithering blackImg1).pixel 0 0 = 0 ∨
      (apply_floyd_steinberg_dithering blackImg1).pixel 0 0 = 255) :=
  ⟨(dither_tone_binary ⟨blackImg1, none⟩).1,
   (dither_tone_binary ⟨blackImg1, none⟩).2 0 0 (by decide) (by decide)⟩

/-- C4: for every color and every non-empty palette, the PaletteStore search
returns a palette entry whose distance to the color is minimal, and every
strictly earlier entry has strictly larger distance (ties resolve to the
earliest entry), i.e. exactly the brute-force minimum-distance scan. -/
theorem nearest_is_bruteforce_min (color : Color) (P : List Color) (hP : P ≠ []) :
    ∃ i, i < P.length ∧ P.get? i = some (PaletteStore.get_nearest_color P color) ∧
      (∀ j q, P.get? j = some q →
        dist2 (PaletteStore.get_nearest_color P color) color ≤ dist2 q color) ∧
      (∀ j q, j < i → P.get? j = some q →
        dist2 (PaletteStore.get_nearest_color P color) color < dist2 q color) := by
  cases P with
  | nil => exact absurd rfl hP
  | cons p ps =>
    have hred : PaletteStore.get_nearest_color (p :: ps) color =
        minByAux (fun q => dist2 q color) p ps := by
      simp [PaletteStore.get_nearest_color, minByList]
    rw [hred]
    exact minByAux_spec (fun q => dist2 q color) ps p

/-- C4 witness: the characterization applied to the default active palette. -/
theorem nearest_is_bruteforce_min_witness :
    ∃ i, i < PaletteStore.defaultActivePalette.length ∧
      PaletteStore.defaultActivePalette.get? i =
        some (PaletteStore.get_nearest_color PaletteStore.defaultActivePalette ⟨10, 10, 10⟩) ∧
      (∀ j q, PaletteStore.defaultActivePalette.get? j = some q →
        dist2 (PaletteStore.get_nearest_color PaletteStore.defaultActivePalette ⟨10, 10, 10⟩)
          ⟨10, 10, 10⟩ ≤ dist2 q ⟨10, 10, 10⟩) ∧
      (∀ j q, j < i → PaletteStore.defaultActivePalette.get? j = some q →
        dist2 (PaletteStore.get_nearest_color PaletteStore.defaultActivePalette ⟨10, 10, 10⟩)
          ⟨10, 10, 10⟩ < dist2 q ⟨10, 10, 10⟩) :=
  nearest_is_bruteforce_min ⟨10, 10, 10⟩ PaletteStore.defaultActivePalette (by decide)

/-- C5 counterexample: with the same pending Tone image (a 1×1 gray of value
200), the Dither step produces 0 when the retained full-color image is black
and 255 when it is green — so its result is computed by re-extracting luma
from the retained full-color image, not by diffusing the current
single-channel image (direct diffusion of that image gives 255, not 0). -/
theorem tone_dither_uses_retained_image_cex :
    ((applyOp ⟨blackImg1, some gray200⟩ .FloydSteinberg).grayOpt.map
      (fun g => g.pixel 0 0)) = some 0 ∧
    ((applyOp ⟨greenImg1, some gray200⟩ .FloydSteinberg).grayOpt.map
      (fun g => g.pixel 0 0)) = some 255 ∧
    (floyd_steinberg_dithering gray200).pixel 0 0 = 255 := by
  decide

/-- C5 amended: in any state reached from a FullColor start, a Dither step in
the Tone state re-runs luma extraction and error diffusion on the *retained*
full-color image; because the pending Tone image is exactly the dither of
that retained image and error diffusion is the identity on 0/255 images,
the step leaves the state unchanged (state remains Tone), and its result
coincides with error diffusion applied directly to the current
single-channel image. -/
theorem tone_dither_amended (s0 : PipelineState) (ops : List FilterOperation)
    (g : GrayImage) (h0 : s0.grayOpt = none)
    (hg : (runOps s0 ops).grayOpt = some g) :
    applyOp (runOps s0 ops) .FloydSteinberg = runOps s0 ops ∧
    (applyOp (runOps s0 ops) .FloydSteinberg).grayOpt =
      some (floyd_steinberg_dithering g) := by
  have hinv : g = apply_floyd_steinberg_dithering (runOps s0 ops).image := by
    refine runOps_tone_invariant ops s0 ?_ g hg
    intro g' hg'
    rw [h0] at hg'
    cases hg'
  have hbin : ∀ a b, a < g.width → b < g.height → g.pixel a b = 0 ∨ g.pixel a b = 255 := by
    intro a b ha hb
    rw [hinv] at ha hb ⊢
    rw [apply_floyd_steinberg_dithering, floyd_width] at ha
    rw [apply_floyd_steinberg_dithering, floyd_height] at hb
    exact floyd_binary _ a b ha hb
  have hfix : floyd_steinberg_dithering g = g := floyd_id_of_binary g hbin
  constructor
  · show PipelineState.mk (runOps s0 ops).image
      (some (apply_floyd_steinberg_dithering (runOps s0 ops).image)) = runOps s0 ops
    rw [← hinv, ← hg]
  · show some (apply_floyd_steinberg_dithering (runOps s0 ops).image) =
      some (floyd_steinberg_dithering g)
    rw [hfix, hinv]

/-- C5 witness: the amended statement applied to the pipeline `[Dither]`
started on a 1×1 black image in the FullColor state. -/
theorem tone_dither_amended_witness :
    applyOp (runOps ⟨blackImg1, none⟩ [.FloydSteinberg]) .FloydSteinberg =
      runOps ⟨blackImg1, none⟩ [.FloydSteinberg] ∧
    (applyOp (runOps ⟨blackImg1, none⟩ [.FloydSteinberg]) .FloydSteinberg).grayOpt =
      some (floyd_steinberg_dithering (apply_floyd_steinberg_dithering blackImg1)) :=
  tone_dither_amended ⟨blackImg1, none⟩ [.FloydSteinberg]
    (apply_floyd_steinberg_dithering blackImg1) rfl rfl

/-- C6 counterexample: on a 2×2 image with blockSize 3 (≥ both dimensions)
`pixelate` is not rejected: the intermediate dimensions are 0 and the
resampler is invoked on the empty intermediate anyway, yielding an ordinary
2×2 image.  With blockSize 2 (equal to the dimensions) the intermediate is
1, not 0, and again no rejection happens. -/
theorem pixelate_degenerate_not_rejected_cex :
    img22.width / 3 = 0 ∧
    pixelate img22 3 = resizeNearest (resizeNearest img22 0 0) 2 2 ∧
    (pixelate img22 3).width = 2 ∧ (pixelate img22 3).height = 2 ∧
    img22.width / 2 = 1 ∧ (pixelate img22 2).width = 2 :=
  ⟨rfl, rfl, rfl, rfl, rfl, rfl⟩

/-- C6 amended: `pixelate` performs no blockSize validation and has no
failure path: for every blockSize larger than the width, the horizontal
intermediate dimension is 0 and the resampler is still invoked on the
degenerate raster; the result is always an image with the original
dimensions. -/
theorem pixelate_no_validation (image : RgbImage) (pixel_size : Nat)
    (h : image.width < pixel_size) :
    (pixelate image pixel_size).width = image.width ∧
    (pixelate image pixel_size).height = image.height ∧
    pixelate image pixel_size =
      resizeNearest (resizeNearest image 0 (image.height / pixel_size))
        image.width image.height := by
  refine ⟨rfl, rfl, ?_⟩
  simp only [pixelate]
  rw [Nat.div_eq_of_lt h]

/-- C6 witness: the amended statement at a 2×2 image with blockSize 3. -/
theorem pixelate_no_validation_witness :
    (pixelate img22 3).width = img22.width ∧
    (pixelate img22 3).height = img22.height ∧
    pixelate img22 3 =
      resizeNearest (resizeNearest img22 0 (img22.height / 3)) img22.width img22.height :=
  pixelate_no_validation img22 3 (by decide)

/-- C7 counterexample: the CLI token `-rev` matches no parser branch — the
run `prog -rev in.png out.png` ends in the unknown-operation usage error and
no operation (in particular no inversion) is ever executed.  The code
defines no Invert operation at all. -/
theorem rev_token_unknown_cex :
    parseArgs argsRev = CliOutcome.unknownOperation revTok := by
  decide

/-- C7 amended: the pipeline has no Invert operation — `-rev` is reported as
an unknown operation wherever it occurs in the argument list — while the
inversion map described by the design document (`channel ↦ 255 − channel`,
modelled from the spec as `invert`) is indeed an involution on 8-bit
images. -/
theorem invert_involution_amended :
    (∀ (rest : List Tok) (acc : List FilterOperation),
      parseLoop (revTok :: rest) acc = Sum.inl (CliOutcome.unknownOperation revTok)) ∧
    ∀ (img : RgbImage), img.wf →
      (invert (invert img)).width = img.width ∧
      (invert (invert img)).height = img.height ∧
      ∀ x y, x < img.width → y < img.height →
        (invert (invert img)).pixel x y = img.pixel x y := by
  constructor
  · intro rest acc
    rfl
  · intro img hwf
    refine ⟨rfl, rfl, ?_⟩
    intro x y hx hy
    obtain ⟨hr, hg, hb⟩ := hwf x hx y hy
    show (⟨255 - (255 - (img.pixel x y).r), 255 - (255 - (img.pixel x y).g),
        255 - (255 - (img.pixel x y).b)⟩ : Color) = img.pixel x y
    have h1 : 255 - (255 - (img.pixel x y).r) = (img.pixel x y).r := by omega
    have h2 : 255 - (255 - (img.pixel x y).g) = (img.pixel x y).g := by omega
    have h3 : 255 - (255 - (img.pixel x y).b) = (img.pixel x y).b := by omega
    rw [h1, h2, h3]

/-- C7 witness: the amended statement at a concrete argument tail and a
concrete 2×2 well-formed image. -/
theorem invert_involution_amended_witness :
    parseLoop [revTok] [] = Sum.inl (CliOutcome.unknownOperation revTok) ∧
    (invert (invert img22)).pixel 0 0 = img22.pixel 0 0 :=
  ⟨invert_involution_amended.1 [] [],
   (invert_involution_amended.2 img22 (by decide)).2.2 0 0 (by decide) (by decide)⟩

/-- C8 counterexample: `prog -pix=0 -pal in.png out.png` is not reported as a
usage error: `-pix=0` is dropped silently and the run proceeds to open and
process the image with the remaining Palette operation. -/
theorem pix_zero_not_reported_cex :
    parseArgs argsPixZero =
      CliOutcome.run [FilterOperation.Palette]
        ['i', 'n', '.', 'p', 'n', 'g'] ['o', 'u', 't', '.', 'p', 'n', 'g'] := by
  decide

/-- C8 amended: `-pix=0` is silently ignored by the argument loop — nothing
is pushed, nothing is reported, and parsing continues with the remaining
tokens; only when no operation at all survives does the run stop (with the
no-operations message, before any image is opened). -/
theorem pix_zero_silently_ignored :
    (∀ (rest : List Tok) (acc : List FilterOperation),
      parseLoop ((pixEqTok ++ ['0']) :: rest) acc = parseLoop rest acc) ∧
    parseArgs [['p', 'r', 'o', 'g'], pixEqTok ++ ['0'],
      ['i', 'n'], ['o', 'u', 't']] = CliOutcome.noOperations := by
  exact ⟨fun rest acc => rfl, rfl⟩

/-- C9: the Palette operation is idempotent — after one pass every pixel is
a `GB_PALETTE` entry, every palette entry is its own nearest entry (the
distance-0 minimum is strict because the palette has no duplicates), so a
second pass changes nothing. -/
theorem apply_palette_idempotent (img : RgbImage) :
    apply_palette (apply_palette img) = apply_palette img := by
  refine rgb_eq_of_parts rfl rfl ?_
  intro x y
  show get_nearest_color (get_nearest_color (img.pixel x y)) =
    get_nearest_color (img.pixel x y)
  exact gb_fixed _ (nearest_gb_mem _)

/-- C10: every pipeline operation preserves the raster dimensions — Palette,
Pixelate (any positive blockSize, including the degenerate ones where the
intermediate raster is smaller or empty), grayscale extraction and
Floyd–Steinberg dithering all return an image of the input's width and
height. -/
theorem operations_preserve_dimensions (img : RgbImage) (g : GrayImage)
    (pixel_size : Nat) (hps : 0 < pixel_size) :
    (apply_palette img).width = img.width ∧ (apply_palette img).height = img.height ∧
    (pixelate img pixel_size).width = img.width ∧
    (pixelate img pixel_size).height = img.height ∧
    (grayscale img).width = img.width ∧ (grayscale img).height = img.height ∧
    (floyd_steinberg_dithering g).width = g.width ∧
    (floyd_steinberg_dithering g).height = g.height :=
  ⟨rfl, rfl, rfl, rfl, rfl, rfl, floyd_width g, floyd_height g⟩

/-- C10 witness: the dimension facts at a 2×2 color image, a 1×1 gray image
and blockSize 2. -/
theorem operations_preserve_dimensions_witness :
    (apply_palette img22).width = img22.width ∧
    (apply_palette img22).height = img22.height ∧
    (pixelate img22 2).width = img22.width ∧
    (pixelate img22 2).height = img22.height ∧
    (grayscale img22).width = img22.width ∧ (grayscale img22).height = img22.height ∧
    (floyd_steinberg_dithering gray200).width = gray200.width ∧
    (floyd_steinberg_dithering gray200).height = gray200.height :=
  operations_preserve_dimensions img22 gray200 2 (by decide)
